import Mathlib

/-!
Shallow embedding of `src/gateway/chat-attachments.ts` (openclaw attachment
ingestion core): content normalization, base64 validation and decoding, MIME
sniffing/classification, the lenient multi-image path
(`parseMessageWithAttachments`), the strict first-audio path
(`getFirstAudioAttachment`), and the deprecated legacy encoder
(`buildMessageWithAttachments`).

Modelling conventions:
- JS strings are Lean `String`s; operations are performed on the char list
  (`String.data`) so that everything reduces.
- `Buffer`s are `List Nat` (byte values).
- A thrown `Error` is `Except.error msg` with the exact message text.
- The warning sink (`log.warn`) is modelled by collecting the warned
  messages in an output list, in emission order.
- The byte-signature detector `detectMime` (from `src/media/mime.ts`, a
  module not part of the inspected source) is an explicit function
  parameter `detect : List Nat → Option String`; a concrete instance
  modelled from the spec is provided as `detectMimeModel`.
-/

namespace OpenClaw

/-- Runtime value found in an attachment `content` field. The TypeScript
field has type `unknown`; we distinguish a string from every other shape
(undefined, Buffer, number, ...), which is all the code inspects
(`typeof content !== "string"`). -/
inductive ContentValue where
  | str (s : String)
  | nonString
  deriving DecidableEq

/-- The string payload of a `content` value. Only evaluated by the code
after the `typeof content === "string"` guard, so the `nonString` branch
is never reached by the embedded functions. -/
def ContentValue.asString : ContentValue → String
  | .str s => s
  | .nonString => ""

/-- Model of JavaScript `String.prototype.trim` (whitespace characters in
the ASCII range, which is what the code's inputs exercise). -/
def jsTrimList (l : List Char) : List Char :=
  ((l.dropWhile Char.isWhitespace).reverse.dropWhile Char.isWhitespace).reverse

/-- `content.trim()` as a `String` operation. -/
def jsTrim (s : String) : String :=
  ⟨jsTrimList s.data⟩

/-- Model of `String.prototype.toLowerCase` on one character (ASCII range,
sufficient for MIME tokens). -/
def asciiLower (c : Char) : Char :=
  if 65 ≤ c.toNat ∧ c.toNat ≤ 90 then Char.ofNat (c.toNat + 32) else c

/-- `s.toLowerCase()`. -/
def lowerString (s : String) : String :=
  ⟨s.data.map asciiLower⟩

/-- JavaScript line terminators, which `.` in a regex never matches. -/
def isJsLineTerm (c : Char) : Bool :=
  c = '\n' || c = '\r' || c = Char.ofNat 0x2028 || c = Char.ofNat 0x2029

/-- `normalizeMime` — `mime.split(";")[0]?.trim().toLowerCase()`, with
falsy (empty/absent) inputs and results mapped to `none`.
`split(";")[0]` is the longest ';'-free prefix. -/
def normalizeMime (mime : Option String) : Option String :=
  match mime with
  | none => none
  | some m =>
    if m = "" then none
    else
      if lowerString (jsTrim ⟨m.data.takeWhile (fun c => c ≠ ';')⟩) = "" then none
      else some (lowerString (jsTrim ⟨m.data.takeWhile (fun c => c ≠ ';')⟩))

/-- The regex `/^data:[^;]+;base64,(.*)$/` applied to a char list: returns
the captured group when the whole input matches. `[^;]+` cannot cross the
first ';', and `.` does not match line terminators, so the match is
determined as below. -/
def matchDataUrl (l : List Char) : Option (List Char) :=
  if l.take 5 = ("data:").data then
    let p := l.drop 5
    let m := p.takeWhile (fun c => c ≠ ';')
    match p.dropWhile (fun c => c ≠ ';') with
    | [] => none
    | _ :: tail =>
      if m ≠ [] ∧ tail.take 7 = ("base64,").data then
        let rest := tail.drop 7
        if rest.any isJsLineTerm then none else some rest
      else none
  else none

/-- `stripDataUrlPrefix` — trim, then strip a `data:<mime>;base64,` prefix
when the data-URL regex matches. -/
def stripDataUrlPrefix (content : String) : String :=
  let trimmed := jsTrim content
  match matchDataUrl trimmed.data with
  | some rest => ⟨rest⟩
  | none => trimmed

/-- `normalizeBase64ForDecode` — strip data-URL prefix, trim, map the
URL-safe alphabet to the standard one, repair missing padding. -/
def normalizeBase64ForDecode (content : String) : String :=
  let s0 := ( stripDataUrlPrefix content)
  let s1 := (jsTrim s0).data.map (fun c => if c = '-' then '+' else if c = '_' then '/' else c)
  let r := s1.length % 4
  if r = 0 then ⟨s1⟩ else ⟨s1 ++ List.replicate (4 - r) '='⟩

/-- Value of one base64 alphabet character, `none` outside the alphabet. -/
def base64CharVal (c : Char) : Option Nat :=
  if 65 ≤ c.toNat ∧ c.toNat ≤ 90 then some (c.toNat - 65)
  else if 97 ≤ c.toNat ∧ c.toNat ≤ 122 then some (c.toNat - 97 + 26)
  else if 48 ≤ c.toNat ∧ c.toNat ≤ 57 then some (c.toNat - 48 + 52)
  else if c = '+' then some 62
  else if c = '/' then some 63
  else none

/-- A character accepted by the validation regex class `[A-Za-z0-9+/=]`. -/
def isBase64Char (c : Char) : Bool :=
  (base64CharVal c).isSome || c = '='

/-- The charset test `/[^A-Za-z0-9+/=]/.test(b64)`. -/
def hasInvalidBase64Char (s : String) : Bool :=
  s.data.any (fun c => !(isBase64Char c))

/-- Reassemble decoded 6-bit groups into bytes (trailing bits that do not
fill a byte are discarded, as Node's base64 decoder does). -/
def sextetsToBytes : List Nat → List Nat
  | a :: b :: c :: d :: rest =>
    (a * 4 + b / 16) :: ((b % 16) * 16 + c / 4) :: ((c % 4) * 64 + d) :: sextetsToBytes rest
  | [a, b] => [a * 4 + b / 16]
  | [a, b, c] => [a * 4 + b / 16, (b % 16) * 16 + c / 4]
  | _ => []

/-- Model of `Buffer.from(s, "base64")`: decode up to the first `=`,
skipping characters outside the alphabet, never throwing. -/
def decodeBase64 (s : String) : List Nat :=
  sextetsToBytes ((s.data.takeWhile (fun c => c ≠ '=')).filterMap base64CharVal)

/-- `ChatAttachment` — untrusted input record (`content` is `unknown` and
optional in TypeScript; an absent field is `nonString`). -/
structure ChatAttachment where
  type : Option String
  mimeType : Option String
  fileName : Option String
  content : ContentValue
  deriving DecidableEq

/-- `NormalizedAttachment` — same fields; its TypeScript type declares
`content : string`, but `getFirstAudioAttachment` still guards on
`typeof att.content !== "string"`, so the runtime shape is kept. -/
structure NormalizedAttachment where
  type : Option String
  mimeType : Option String
  fileName : Option String
  content : ContentValue
  deriving DecidableEq

/-- `ChatImageContent` output record. -/
structure ChatImageContent where
  type : String
  data : String
  mimeType : String
  deriving DecidableEq

/-- `ParsedMessageWithImages` output record. -/
structure ParsedMessageWithImages where
  message : String
  images : List ChatImageContent
  deriving DecidableEq

/-- `FirstAudioResult` output record (`buffer` is the decoded bytes). -/
structure FirstAudioResult where
  buffer : List Nat
  mimeType : String
  deriving DecidableEq

/-- `att.fileName || att.type || `attachment-${idx + 1}`` — JavaScript `||`
skips empty strings as well as absent values. -/
def firstTruthy (a : Option String) (b : String) : String :=
  match a with
  | some s => if s = "" then b else s
  | none => b

/-- The error/log label of the attachment at (0-based) index `idx`. -/
def attachmentLabel (fileName ty : Option String) (idx : Nat) : String :=
  firstTruthy fileName (firstTruthy ty ("attachment-" ++ toString (idx + 1)))

/-- `s.startsWith(p)` on char lists (reduces by computation). -/
def strStartsWith (s p : String) : Bool :=
  decide (s.data.take p.data.length = p.data)

/-- `isImageMime` — declared on a possibly-absent string. -/
def isImageMime (mime : Option String) : Bool :=
  match mime with
  | some s => strStartsWith s ("image/")
  | none => false

/-- `isAudioMime`. -/
def isAudioMime (mime : Option String) : Bool :=
  match mime with
  | some s => strStartsWith s ("audio/")
  | none => false

/-- `sniffMimeFromBase64` — normalize, decode a bounded prefix (at most 256
base64 characters rounded down to a multiple of 4, inconclusive below 8),
and run the detector on it; any failure yields `none`. -/
def sniffMimeFromBase64 (detect : List Nat → Option String) (base64 : String) : Option String :=
  let normalized := normalizeBase64ForDecode base64
  if normalized = "" then none
  else
    let tk := min 256 normalized.length
    let sliceLen := tk - tk % 4
    if sliceLen < 8 then none
    else detect (decodeBase64 ⟨normalized.data.take sliceLen⟩)

/-- Modelled from the spec: the byte-signature detector `detectMime` of
`src/media/mime.ts` is not part of the inspected source. Per §4.2/§3 it is
magic-byte signature detection over a decoded prefix, returning a
normalized lowercase parameter-free MIME string or absent; per §4.4 the
generic MPEG-4 container sniffs as `video/mp4`. This instance recognizes
the signatures exercised by the spec's examples (Ogg, ID3/MP3, JPEG, PNG,
MPEG-4 `ftyp`). -/
def detectMimeModel (bytes : List Nat) : Option String :=
  if bytes.take 4 = [0x4F, 0x67, 0x67, 0x53] then some ("audio/ogg")
  else if bytes.take 3 = [0x49, 0x44, 0x33] then some ("audio/mpeg")
  else if bytes.take 3 = [0xFF, 0xD8, 0xFF] then some ("image/jpeg")
  else if bytes.take 8 = [0x89, 0x50, 0x4E, 0x47, 0x0D, 0x0A, 0x1A, 0x0A] then some ("image/png")
  else if (bytes.drop 4).take 4 = [0x66, 0x74, 0x79, 0x70] then some ("video/mp4")
  else none

/-- Default byte ceiling of the lenient path (`opts?.maxBytes ?? 5_000_000`). -/
def defaultParseMaxBytes : Nat := 5000000

/-- Default byte ceiling of the legacy path (`opts?.maxBytes ?? 2_000_000`). -/
def defaultBuildMaxBytes : Nat := 2000000

/-- `decodeAndValidateAudioAttachment` — normalize, charset-check, decode,
size-check (`byteLength <= 0 || byteLength > maxBytes` throws, `≤ 0` is
`= 0` on `Nat`), then resolve
`normalizeMime(att.mimeType) ?? detectMime(buffer) ?? "audio/octet-stream"`
and keep the attachment only when that resolved type is audio. -/
def decodeAndValidateAudioAttachment (detect : List Nat → Option String)
    (att : NormalizedAttachment) (idx : Nat) (maxBytes : Nat) :
    Except String (Option FirstAudioResult) :=
  let label := attachmentLabel att.fileName att.type idx
  let b64 := normalizeBase64ForDecode att.content.asString
  if hasInvalidBase64Char b64 then
    .error ("attachment " ++ label ++ ": invalid base64 content")
  else
    let buffer := decodeBase64 b64
    if buffer.length = 0 ∨ maxBytes < buffer.length then
      .error ("attachment " ++ label ++ ": exceeds size limit (" ++
        toString buffer.length ++ " > " ++ toString maxBytes ++ " bytes)")
    else
      let mimeType :=
        match normalizeMime att.mimeType with
        | some v => v
        | none =>
          match detect buffer with
          | some v => v
          | none => "audio/octet-stream"
      if isAudioMime (some mimeType) then .ok (some ⟨buffer, mimeType⟩) else .ok none

/-- One iteration of the `getFirstAudioAttachment` loop: `.ok none` means
the loop continues (`continue` / unsuccessful candidate), `.ok (some r)`
means `return result`, `.error` means a thrown validation error. -/
def audioStep (detect : List Nat → Option String) (maxBytes idx : Nat)
    (att? : Option NormalizedAttachment) : Except String (Option FirstAudioResult) :=
  match att? with
  | none => .ok none
  | some att =>
    match att.content with
    | .nonString => .ok none
    | .str contentStr =>
      let mime := att.mimeType.getD ("")
      let providedMime := normalizeMime (some mime)
      let step1 : Except String (Option FirstAudioResult) :=
        if providedMime.isSome && isAudioMime providedMime then
          decodeAndValidateAudioAttachment detect att idx maxBytes
        else .ok none
      match step1 with
      | .error e => .error e
      | .ok (some r) => .ok (some r)
      | .ok none =>
        let sniffedMime := normalizeMime (sniffMimeFromBase64 detect contentStr)
        if sniffedMime.isSome && isAudioMime sniffedMime then
          decodeAndValidateAudioAttachment detect att idx maxBytes
        else .ok none

/-- The `for (const [idx, att] of attachments.entries())` loop of
`getFirstAudioAttachment`. -/
def firstAudioGo (detect : List Nat → Option String) (maxBytes : Nat) :
    Nat → List (Option NormalizedAttachment) → Except String (Option FirstAudioResult)
  | _, [] => .ok none
  | idx, att? :: rest =>
    match audioStep detect maxBytes idx att? with
    | .error e => .error e
    | .ok (some r) => .ok (some r)
    | .ok none => firstAudioGo detect maxBytes (idx + 1) rest

/-- `getFirstAudioAttachment` — `null` list, absent list and empty list all
return `null`; otherwise scan in input order. -/
def getFirstAudioAttachment (detect : List Nat → Option String)
    (attachments : Option (List (Option NormalizedAttachment))) (maxBytes : Nat) :
    Except String (Option FirstAudioResult) :=
  match attachments with
  | none => .ok none
  | some l => if l.isEmpty then .ok none else firstAudioGo detect maxBytes 0 l

/-- One iteration of the `parseMessageWithAttachments` loop: the image
pushed (if any) and the warnings emitted for this attachment, or the
thrown error. -/
def parseStep (detect : List Nat → Option String) (maxBytes idx : Nat)
    (att? : Option ChatAttachment) : Except String (Option ChatImageContent × List String) :=
  match att? with
  | none => .ok (none, [])
  | some att =>
    let mime := att.mimeType.getD ("")
    let label := attachmentLabel att.fileName att.type idx
    match att.content with
    | .nonString => .error ("attachment " ++ label ++ ": content must be base64 string")
    | .str content =>
      let b64 := normalizeBase64ForDecode content
      if hasInvalidBase64Char b64 then
        .error ("attachment " ++ label ++ ": invalid base64 content")
      else
        let sizeBytes := (decodeBase64 b64).length
        if sizeBytes = 0 ∨ maxBytes < sizeBytes then
          .error ("attachment " ++ label ++ ": exceeds size limit (" ++
            toString sizeBytes ++ " > " ++ toString maxBytes ++ " bytes)")
        else
          let providedMime := normalizeMime (some mime)
          let sniffedMime := normalizeMime (sniffMimeFromBase64 detect b64)
          let sniffedIsAudio := isAudioMime sniffedMime
          let providedIsAudio := isAudioMime providedMime
          let isM4aAudio := providedIsAudio && sniffedMime = some ("video/mp4")
          if sniffedMime.isSome && !(isImageMime sniffedMime) then
            if !sniffedIsAudio && !isM4aAudio then
              .ok (none, ["attachment " ++ label ++ ": detected non-image (" ++
                sniffedMime.getD ("") ++ "), dropping"])
            else .ok (none, [])
          else if !sniffedMime.isSome && !(isImageMime providedMime) then
            if !providedIsAudio then
              .ok (none, ["attachment " ++ label ++ ": unable to detect image mime type, dropping"])
            else .ok (none, [])
          else
            let w :=
              if sniffedMime.isSome ∧ providedMime.isSome ∧ sniffedMime ≠ providedMime then
                ["attachment " ++ label ++ ": mime mismatch (" ++ providedMime.getD ("") ++
                  " -> " ++ sniffedMime.getD ("") ++ "), using sniffed"]
              else []
            .ok (some ⟨"image", b64, ((sniffedMime.orElse fun _ => providedMime).getD mime)⟩, w)

/-- The loop of `parseMessageWithAttachments`, accumulating pushed images
and emitted warnings in order. -/
def parseGo (detect : List Nat → Option String) (maxBytes : Nat) :
    Nat → List (Option ChatAttachment) → Except String (List ChatImageContent × List String)
  | _, [] => .ok ([], [])
  | idx, a :: rest =>
    match parseStep detect maxBytes idx a with
    | .error e => .error e
    | .ok (img?, w) =>
      match parseGo detect maxBytes (idx + 1) rest with
      | .error e => .error e
      | .ok (imgs, ws) => .ok (img?.toList ++ imgs, w ++ ws)

/-- `parseMessageWithAttachments` — lenient multi-image path. The second
component of a successful result is the list of messages sent to the
warning sink. -/
def parseMessageWithAttachments (detect : List Nat → Option String) (message : String)
    (attachments : Option (List (Option ChatAttachment))) (maxBytes : Nat) :
    Except String (ParsedMessageWithImages × List String) :=
  match attachments with
  | none => .ok (⟨message, []⟩, [])
  | some l =>
    if l.isEmpty then .ok (⟨message, []⟩, [])
    else
      match parseGo detect maxBytes 0 l with
      | .error e => .error e
      | .ok (imgs, ws) => .ok (⟨message, imgs⟩, ws)

/-- `label.replace(/\s+/g, "_")`: each maximal whitespace run becomes one
underscore. The boolean tracks whether the previous character was
whitespace. -/
def collapseWsAux : Bool → List Char → List Char
  | _, [] => []
  | prevWs, c :: rest =>
    if c.isWhitespace then
      if prevWs then collapseWsAux true rest else '_' :: collapseWsAux true rest
    else c :: collapseWsAux false rest

/-- One iteration of the `buildMessageWithAttachments` loop: the markdown
blocks contributed by this attachment, or the thrown error. The legacy
path checks the *declared* MIME only and validates the trimmed content
directly (length multiple of 4 + charset), without normalization. -/
def buildStep (maxBytes idx : Nat) (att? : Option ChatAttachment) : Except String (List String) :=
  match att? with
  | none => .ok []
  | some att =>
    let mime := att.mimeType.getD ("")
    let label := attachmentLabel att.fileName att.type idx
    match att.content with
    | .nonString => .error ("attachment " ++ label ++ ": content must be base64 string")
    | .str content =>
      if !(strStartsWith mime ("image/")) then
        .error ("attachment " ++ label ++ ": only image/* supported")
      else
        let b64 := jsTrim content
        if b64.length % 4 ≠ 0 ∨ hasInvalidBase64Char b64 then
          .error ("attachment " ++ label ++ ": invalid base64 content")
        else
          let sizeBytes := (decodeBase64 b64).length
          if sizeBytes = 0 ∨ maxBytes < sizeBytes then
            .error ("attachment " ++ label ++ ": exceeds size limit (" ++
              toString sizeBytes ++ " > " ++ toString maxBytes ++ " bytes)")
          else
            let safeLabel : String := ⟨collapseWsAux false label.data⟩
            .ok (["![" ++ safeLabel ++ "](data:" ++ mime ++ ";base64," ++ content ++ ")"])

/-- The loop of `buildMessageWithAttachments`, accumulating blocks. -/
def buildGo (maxBytes : Nat) : Nat → List (Option ChatAttachment) → Except String (List String)
  | _, [] => .ok []
  | idx, a :: rest =>
    match buildStep maxBytes idx a with
    | .error e => .error e
    | .ok bs =>
      match buildGo maxBytes (idx + 1) rest with
      | .error e => .error e
      | .ok rs => .ok (bs ++ rs)

/-- `buildMessageWithAttachments` — deprecated legacy strict-image path. -/
def buildMessageWithAttachments (message : String)
    (attachments : Option (List (Option ChatAttachment))) (maxBytes : Nat) :
    Except String String :=
  match attachments with
  | none => .ok message
  | some l =>
    if l.isEmpty then .ok message
    else
      match buildGo maxBytes 0 l with
      | .error e => .error e
      | .ok blocks =>
        if blocks.isEmpty then .ok message
        else
          let separator := if 0 < (jsTrim message).length then ("\n\n") else ("")
          .ok (message ++ separator ++ String.intercalate ("\n\n") blocks)

/-- The image record the lenient path keeps for the attachment at index
`idx`, if any (`none` for dropped attachments and validation errors). -/
def stepImage (detect : List Nat → Option String) (maxBytes idx : Nat)
    (att? : Option ChatAttachment) : Option ChatImageContent :=
  match parseStep detect maxBytes idx att? with
  | .ok (img?, _) => img?
  | .error _ => none

/-- The per-attachment image classification of a whole list, in input
order, starting at index `idx`. -/
def imagesOfFrom (detect : List Nat → Option String) (maxBytes : Nat) :
    Nat → List (Option ChatAttachment) → List ChatImageContent
  | _, [] => []
  | idx, a :: rest =>
    (stepImage detect maxBytes idx a).toList ++ imagesOfFrom detect maxBytes (idx + 1) rest

/-- Canonical base64 text: standard alphabet, at most two trailing `=`
padding characters and none elsewhere, length a multiple of 4 (hence no
surrounding whitespace and no data-URL prefix). -/
def isCanonicalBase64 (s : String) : Bool :=
  let body := s.data.takeWhile (fun c => c ≠ '=')
  let pad := s.data.drop body.length
  body.all (fun c => (base64CharVal c).isSome) && pad.all (fun c => c = '=') &&
    pad.length ≤ 2 && s.data.length % 4 = 0

/-! ### Generic helper lemmas -/

theorem dropWhile_eq_self_of_all {α : Type} {p : α → Bool} {l : List α}
    (h : ∀ c ∈ l, p c = false) : l.dropWhile p = l := by
  cases l with
  | nil => rfl
  | cons a t =>
    rw [List.dropWhile_cons]
    simp [h a (List.mem_cons_self a t)]

theorem map_eq_self_of_all {α : Type} {f : α → α} {l : List α}
    (h : ∀ c ∈ l, f c = c) : l.map f = l := by
  induction l with
  | nil => rfl
  | cons a t ih =>
    simp only [List.map_cons, h a (List.mem_cons_self a t)]
    rw [ih (fun c hc => h c (List.mem_cons_of_mem a hc))]

theorem jsTrimList_eq_self {l : List Char} (h : ∀ c ∈ l, c.isWhitespace = false) :
    jsTrimList l = l := by
  unfold jsTrimList
  rw [dropWhile_eq_self_of_all h,
    dropWhile_eq_self_of_all (fun c hc => h c (List.mem_reverse.mp hc)),
    List.reverse_reverse]

theorem string_mk_data (s : String) : String.mk s.data = s := by
  cases s
  rfl

theorem isWhitespace_eq_false_of_isBase64Char {c : Char} (h : isBase64Char c = true) :
    c.isWhitespace = false := by
  by_contra hw
  have hw' : c.isWhitespace = true := by
    cases hww : c.isWhitespace
    · exact absurd hww hw
    · rfl
  simp only [Char.isWhitespace, Bool.or_eq_true, decide_eq_true_eq] at hw'
  rcases hw' with ((h1 | h1) | h1) | h1 <;> subst h1 <;> exact absurd h (by decide)

/-! ### C9 — idempotence of normalization on canonical base64 -/

/-- Claim C9 (confirmed): normalization is idempotent — for every string
that is already canonical base64 (standard alphabet, correctly padded, no
data-URL prefix, no surrounding whitespace), `normalizeBase64ForDecode`
returns the identical string. -/
theorem normalizeBase64ForDecode_canonical_id (s : String)
    (h : isCanonicalBase64 s = true) : normalizeBase64ForDecode s = s := by
  have hparts := h
  unfold isCanonicalBase64 at hparts
  simp only [Bool.and_eq_true, List.all_eq_true, decide_eq_true_eq] at hparts
  obtain ⟨⟨⟨hbody, hpad⟩, _⟩, hlen⟩ := hparts
  -- every character of `s` is in the `[A-Za-z0-9+/=]` class
  have hsplit : s.data = s.data.takeWhile (fun c => c ≠ '=') ++
      s.data.drop (s.data.takeWhile (fun c => c ≠ '=')).length := by
    set b := s.data.takeWhile (fun c => c ≠ '=') with hb
    obtain ⟨t, ht⟩ := (List.takeWhile_prefix (l := s.data) (p := fun c => c ≠ '='))
    rw [← hb] at ht
    rw [← ht, List.drop_left]
  have hall : ∀ c ∈ s.data, isBase64Char c = true := by
    intro c hc
    rw [hsplit] at hc
    rcases List.mem_append.mp hc with hc | hc
    · have := hbody c hc
      simp [isBase64Char, this]
    · have := hpad c hc
      simp [isBase64Char, this]
  have hws : ∀ c ∈ s.data, c.isWhitespace = false :=
    fun c hc => isWhitespace_eq_false_of_isBase64Char (hall c hc)
  have htrim : jsTrim s = s := by
    unfold jsTrim
    rw [jsTrimList_eq_self hws, string_mk_data]
  have hmatch : matchDataUrl s.data = none := by
    unfold matchDataUrl
    rw [if_neg]
    intro he
    have hmem : ':' ∈ s.data := List.take_subset 5 s.data (by rw [he]; decide)
    exact absurd (hall ':' hmem) (by decide)
  have hstrip : stripDataUrlPrefix s = s := by
    unfold stripDataUrlPrefix
    rw [htrim]
    simp [hmatch]
  have hmap : s.data.map (fun c => if c = '-' then '+' else if c = '_' then '/' else c) = s.data := by
    apply map_eq_self_of_all
    intro c hc
    have hb := hall c hc
    have h1 : c ≠ '-' := by intro he; subst he; exact absurd hb (by decide)
    have h2 : c ≠ '_' := by intro he; subst he; exact absurd hb (by decide)
    simp [h1, h2]
  have hlen2 : s.length % 4 = 0 := hlen
  simp [normalizeBase64ForDecode, hstrip, htrim, hmap, hlen, hlen2, string_mk_data]

/-- Witness for C9 at the canonical input `"QUJD"`. -/
theorem normalizeBase64ForDecode_canonical_id_witness :
    isCanonicalBase64 ("QUJD") = true ∧ normalizeBase64ForDecode ("QUJD") = "QUJD" :=
  ⟨by decide, normalizeBase64ForDecode_canonical_id ("QUJD") (by decide)⟩

/-! ### C1 — non-string content handling -/

/-- Claim C1, counterexample: an attachment whose `content` is not a
string, presented to the strict first-audio path with an audio declared
MIME, is silently skipped (the call returns `null`, it does not fail) —
refuting the claim that every path fails with UnsupportedContentShape. -/
theorem nonstring_content_counterexample :
    getFirstAudioAttachment detectMimeModel
      (some [some ⟨none, some ("audio/mpeg"), none, ContentValue.nonString⟩]) 1000 =
      .ok none := by
  rfl

/-- Claim C1 as amended: a non-string `content` makes the lenient
multi-image path and the legacy encoder fail immediately with the
`content must be base64 string` error, while the strict first-audio path
silently skips such an attachment and continues its scan with the rest of
the list. -/
theorem nonstring_content_amended (detect : List Nat → Option String) (msg : String)
    (att : ChatAttachment) (rest : List (Option ChatAttachment)) (maxB1 maxB2 : Nat)
    (attN : NormalizedAttachment) (restN : List (Option NormalizedAttachment))
    (idx maxB3 : Nat)
    (hc : att.content = ContentValue.nonString)
    (hcN : attN.content = ContentValue.nonString) :
    parseMessageWithAttachments detect msg (some (some att :: rest)) maxB1 =
        .error ("attachment " ++ attachmentLabel att.fileName att.type 0 ++
          ": content must be base64 string")
    ∧ buildMessageWithAttachments msg (some (some att :: rest)) maxB2 =
        .error ("attachment " ++ attachmentLabel att.fileName att.type 0 ++
          ": content must be base64 string")
    ∧ firstAudioGo detect maxB3 idx (some attN :: restN) =
        firstAudioGo detect maxB3 (idx + 1) restN := by
  refine ⟨?_, ?_, ?_⟩
  · simp [parseMessageWithAttachments, parseGo, parseStep, hc]
  · simp [buildMessageWithAttachments, buildGo, buildStep, hc]
  · simp [firstAudioGo, audioStep, hcN]

/-- Witness for C1's amended theorem at a concrete non-string attachment. -/
theorem nonstring_content_amended_witness :
    parseMessageWithAttachments detectMimeModel ("hello")
        (some [some ⟨none, some ("image/png"), some ("pic.png"), ContentValue.nonString⟩]) 5000000 =
      .error ("attachment pic.png: content must be base64 string") :=
  (nonstring_content_amended detectMimeModel ("hello")
    ⟨none, some ("image/png"), some ("pic.png"), ContentValue.nonString⟩ [] 5000000 2000000
    ⟨none, some ("audio/mpeg"), none, ContentValue.nonString⟩ [] 0 1000 rfl rfl).1

/-! ### C3 — legacy encoder does not normalize -/

/-- Claim C3, counterexample: the unpadded base64 image `"QQ"` (declared
`image/png`) is accepted by the lenient path (normalized to `"QQ=="`, kept
as an image) but rejected by the legacy encoder with the invalid-base64
error, because the legacy path checks the trimmed content directly without
normalization. -/
theorem legacy_no_normalize_counterexample :
    parseMessageWithAttachments detectMimeModel ("hi")
        (some [some ⟨none, some ("image/png"), none, ContentValue.str ("QQ")⟩]) 5000000 =
      .ok (⟨"hi", [⟨"image", "QQ==", "image/png"⟩]⟩, [])
    ∧ buildMessageWithAttachments ("hi")
        (some [some ⟨none, some ("image/png"), none, ContentValue.str ("QQ")⟩]) 2000000 =
      .error ("attachment attachment-1: invalid base64 content") := by
  exact ⟨rfl, rfl⟩

/-- Claim C3 as amended: the legacy encoder skips §4.1 normalization — it
validates the *trimmed* content directly, so any attachment whose trimmed
content is unpadded (length not a multiple of 4) or uses characters
outside the standard alphabet (such as URL-safe `-`/`_`) fails with the
invalid-base64 error even when the lenient path accepts the same
attachment; the paths otherwise differ in their default ceilings
(`defaultParseMaxBytes` = 5,000,000 vs `defaultBuildMaxBytes` =
2,000,000). -/
theorem legacy_no_normalize_amended (detect : List Nat → Option String) (msg : String)
    (maxB1 maxB2 : Nat) (att : ChatAttachment) (s : String)
    (v : ParsedMessageWithImages × List String)
    (hcon : att.content = ContentValue.str s)
    (hmime : strStartsWith (att.mimeType.getD ("")) ("image/") = true)
    (hacc : parseMessageWithAttachments detect msg (some [some att]) maxB1 = .ok v)
    (hnc : (jsTrim s).length % 4 ≠ 0 ∨ hasInvalidBase64Char (jsTrim s) = true) :
    buildMessageWithAttachments msg (some [some att]) maxB2 =
      .error ("attachment " ++ attachmentLabel att.fileName att.type 0 ++
        ": invalid base64 content") := by
  simp [buildMessageWithAttachments, buildGo, buildStep, hcon, hmime, if_pos hnc]

/-- Witness for C3's amended theorem at the unpadded input `"QQ"`. -/
theorem legacy_no_normalize_amended_witness :
    buildMessageWithAttachments ("hi")
        (some [some ⟨none, some ("image/png"), none, ContentValue.str ("QQ")⟩]) 2000000 =
      .error ("attachment attachment-1: invalid base64 content") :=
  legacy_no_normalize_amended detectMimeModel ("hi") 5000000 2000000
    ⟨none, some ("image/png"), none, ContentValue.str ("QQ")⟩ "QQ"
    (⟨"hi", [⟨"image", "QQ==", "image/png"⟩]⟩, []) rfl (by decide) rfl (by decide)

/-! ### Character-case helper lemmas -/

theorem char_toNat_ofNat_of_lt (n : Nat) (h : n < 55296) : (Char.ofNat n).toNat = n := by
  unfold Char.ofNat
  rw [dif_pos (Or.inl h)]
  rfl

theorem toNat_asciiLower (c : Char) :
    (asciiLower c).toNat = if 65 ≤ c.toNat ∧ c.toNat ≤ 90 then c.toNat + 32 else c.toNat := by
  unfold asciiLower
  by_cases h : 65 ≤ c.toNat ∧ c.toNat ≤ 90
  · rw [if_pos h, if_pos h]
    exact char_toNat_ofNat_of_lt _ (by omega)
  · rw [if_neg h, if_neg h]

theorem asciiLower_eq_self {c : Char} (h : ¬(65 ≤ c.toNat ∧ c.toNat ≤ 90)) :
    asciiLower c = c := by
  unfold asciiLower
  rw [if_neg h]

theorem asciiLower_notUpper (c : Char) :
    ¬(65 ≤ (asciiLower c).toNat ∧ (asciiLower c).toNat ≤ 90) := by
  rw [toNat_asciiLower]
  by_cases h : 65 ≤ c.toNat ∧ c.toNat ≤ 90
  · rw [if_pos h]
    omega
  · rw [if_neg h]
    exact h

theorem asciiLower_idem (c : Char) : asciiLower (asciiLower c) = asciiLower c :=
  asciiLower_eq_self (asciiLower_notUpper c)

theorem map_map_asciiLower (l : List Char) :
    (l.map asciiLower).map asciiLower = l.map asciiLower := by
  induction l with
  | nil => rfl
  | cons a t ih => simp [asciiLower_idem, ih]

theorem asciiLower_ne_semi {c : Char} (h : c ≠ ';') : asciiLower c ≠ ';' := by
  by_cases hu : 65 ≤ c.toNat ∧ c.toNat ≤ 90
  · intro he
    have ht := toNat_asciiLower c
    rw [if_pos hu, he] at ht
    have h59 : (';').toNat = 59 := by decide
    omega
  · rw [asciiLower_eq_self hu]
    exact h

theorem jsTrimList_subset (l : List Char) : jsTrimList l ⊆ l := by
  intro c hc
  unfold jsTrimList at hc
  rw [List.mem_reverse] at hc
  have hc2 := (List.dropWhile_sublist Char.isWhitespace).subset hc
  rw [List.mem_reverse] at hc2
  exact (List.dropWhile_sublist Char.isWhitespace).subset hc2

/-- Every successful `normalizeMime` output is lowercase and free of
parameter suffixes (no `;`). -/
theorem normalizeMime_props {o : Option String} {v : String}
    (h : normalizeMime o = some v) :
    lowerString v = v ∧ v.data.all (fun c => c ≠ ';') = true := by
  cases o with
  | none => simp [normalizeMime] at h
  | some m =>
    simp only [normalizeMime] at h
    by_cases hm : m = ""
    · rw [if_pos hm] at h
      exact absurd h (by simp)
    · rw [if_neg hm] at h
      by_cases hcl : lowerString (jsTrim ⟨m.data.takeWhile (fun c => c ≠ ';')⟩) = ""
      · rw [if_pos hcl] at h
        exact absurd h (by simp)
      · rw [if_neg hcl] at h
        have hv : v = lowerString (jsTrim ⟨m.data.takeWhile (fun c => c ≠ ';')⟩) :=
          (Option.some_inj.mp h).symm
        constructor
        · rw [hv]
          unfold lowerString jsTrim
          exact congrArg String.mk (map_map_asciiLower _)
        · rw [hv]
          unfold lowerString jsTrim
          simp only [List.all_eq_true, decide_eq_true_eq]
          intro c hc
          rw [List.mem_map] at hc
          obtain ⟨c', hc', hce⟩ := hc
          have hmem := jsTrimList_subset _ hc'
          have hns : c' ≠ ';' := by
            have := List.mem_takeWhile_imp hmem
            simpa using this
          rw [← hce]
          exact asciiLower_ne_semi hns

/-! ### First-audio loop structure lemmas -/

theorem firstAudioGo_cons (detect : List Nat → Option String) (maxB idx : Nat)
    (a : Option NormalizedAttachment) (rest : List (Option NormalizedAttachment)) :
    firstAudioGo detect maxB idx (a :: rest) =
      match audioStep detect maxB idx a with
      | .error e => .error e
      | .ok (some r) => .ok (some r)
      | .ok none => firstAudioGo detect maxB (idx + 1) rest := rfl

theorem firstAudioGo_append_of_none (detect : List Nat → Option String) (maxB : Nat)
    (xs ys : List (Option NormalizedAttachment)) (idx : Nat)
    (h : firstAudioGo detect maxB idx xs = .ok none) :
    firstAudioGo detect maxB idx (xs ++ ys) = firstAudioGo detect maxB (idx + xs.length) ys := by
  induction xs generalizing idx with
  | nil => simp
  | cons a t ih =>
    rw [List.cons_append, firstAudioGo_cons]
    rw [firstAudioGo_cons] at h
    cases ha : audioStep detect maxB idx a with
    | error e => rw [ha] at h; simp at h
    | ok o =>
      cases o with
      | some r => rw [ha] at h; simp at h
      | none =>
        rw [ha] at h
        simp only [] at h ⊢
        have harith : idx + (a :: t).length = (idx + 1) + t.length := by
          simp
          omega
        rw [harith]
        exact ih (idx + 1) h

theorem firstAudioGo_eq_none_of_steps (detect : List Nat → Option String) (maxB : Nat)
    (l : List (Option NormalizedAttachment)) :
    ∀ idx, (∀ i (h : i < l.length), audioStep detect maxB (idx + i) (l.get ⟨i, h⟩) = .ok none) →
      firstAudioGo detect maxB idx l = .ok none := by
  induction l with
  | nil => intro idx _; rfl
  | cons a t ih =>
    intro idx hs
    have h0 : audioStep detect maxB idx a = .ok none := hs 0 (by simp)
    rw [firstAudioGo_cons, h0]
    apply ih
    intro i hi
    have hstep := hs (i + 1) (by simpa using Nat.succ_lt_succ hi)
    have harith : idx + (i + 1) = (idx + 1) + i := by omega
    rw [harith] at hstep
    exact hstep

/-! ### C7 — first-by-index scan, none on empty/absent/no-qualifier -/

/-- Claim C7 (confirmed): `getFirstAudioAttachment` returns `null` for an
absent or empty list, returns `null` when no attachment qualifies (every
loop iteration continues), and otherwise returns the result of the
qualifying attachment with the smallest index — whatever comes after that
attachment (e.g. a later qualifying audio) is never consulted. -/
theorem getFirstAudioAttachment_first_by_index :
    (∀ (detect : List Nat → Option String) (maxB : Nat),
      getFirstAudioAttachment detect none maxB = .ok none ∧
      getFirstAudioAttachment detect (some []) maxB = .ok none)
    ∧ (∀ (detect : List Nat → Option String) (maxB : Nat)
        (l : List (Option NormalizedAttachment)),
        (∀ i (h : i < l.length), audioStep detect maxB i (l.get ⟨i, h⟩) = .ok none) →
        getFirstAudioAttachment detect (some l) maxB = .ok none)
    ∧ (∀ (detect : List Nat → Option String) (maxB : Nat)
        (xs : List (Option NormalizedAttachment)) (a : Option NormalizedAttachment)
        (ys : List (Option NormalizedAttachment)) (r : FirstAudioResult),
        (∀ i (h : i < xs.length), audioStep detect maxB i (xs.get ⟨i, h⟩) = .ok none) →
        audioStep detect maxB xs.length a = .ok (some r) →
        getFirstAudioAttachment detect (some (xs ++ a :: ys)) maxB = .ok (some r)) := by
  refine ⟨fun detect maxB => ⟨rfl, rfl⟩, ?_, ?_⟩
  · intro detect maxB l hsteps
    cases l with
    | nil => rfl
    | cons a t =>
      show firstAudioGo detect maxB 0 (a :: t) = .ok none
      apply firstAudioGo_eq_none_of_steps
      intro i hi
      rw [Nat.zero_add]
      exact hsteps i hi
  · intro detect maxB xs a ys r hsteps hstep
    have hxs : firstAudioGo detect maxB 0 xs = .ok none := by
      apply firstAudioGo_eq_none_of_steps
      intro i hi
      rw [Nat.zero_add]
      exact hsteps i hi
    have hne : (xs ++ a :: ys).isEmpty = false := by
      cases xs <;> rfl
    show (if (xs ++ a :: ys).isEmpty then Except.ok none
        else firstAudioGo detect maxB 0 (xs ++ a :: ys)) = .ok (some r)
    rw [hne]
    simp only [Bool.false_eq_true, if_false]
    rw [firstAudioGo_append_of_none detect maxB xs (a :: ys) 0 hxs, Nat.zero_add,
      firstAudioGo_cons, hstep]

/-- Witness for C7 at the spec's example `[image, audio_X, audio_Y]`: the
result is `audio_X`'s decoded buffer (an Ogg page header), not
`audio_Y`'s. -/
theorem getFirstAudioAttachment_first_by_index_witness :
    getFirstAudioAttachment detectMimeModel
      (some [some ⟨none, some ("image/png"), none, ContentValue.str ("iVBORw0KGgo=")⟩,
             some ⟨none, some ("audio/ogg"), some ("x.ogg"), ContentValue.str ("T2dnUw==")⟩,
             some ⟨none, some ("audio/ogg"), some ("y.ogg"), ContentValue.str ("T2dnUxMzMzM=")⟩])
      1000 = .ok (some ⟨[79, 103, 103, 83], "audio/ogg"⟩) := by
  apply getFirstAudioAttachment_first_by_index.2.2 detectMimeModel 1000
    [some ⟨none, some ("image/png"), none, ContentValue.str ("iVBORw0KGgo=")⟩]
    (some ⟨none, some ("audio/ogg"), some ("x.ogg"), ContentValue.str ("T2dnUw==")⟩)
    [some ⟨none, some ("audio/ogg"), some ("y.ogg"), ContentValue.str ("T2dnUxMzMzM=")⟩]
    ⟨[79, 103, 103, 83], "audio/ogg"⟩
  · intro i hi
    have h0 : i = 0 := by
      simp at hi
      omega
    subst h0
    rfl
  · rfl

/-! ### C10 — well-formedness of first-audio results -/

theorem decodeAndValidateAudioAttachment_ok_some
    {detect : List Nat → Option String} {att : NormalizedAttachment} {idx maxB : Nat}
    {r : FirstAudioResult}
    (h : decodeAndValidateAudioAttachment detect att idx maxB = .ok (some r)) :
    1 ≤ r.buffer.length ∧ r.buffer.length ≤ maxB ∧
    strStartsWith r.mimeType ("audio/") = true ∧
    (r.mimeType = "audio/octet-stream" ∨ normalizeMime att.mimeType = some r.mimeType ∨
      detect r.buffer = some r.mimeType) := by
  unfold decodeAndValidateAudioAttachment at h
  simp only [] at h
  split at h
  · simp at h
  · split at h
    · simp at h
    · rename_i hsize
      split at h
      · rename_i haudio
        have hr : r = ⟨decodeBase64 (normalizeBase64ForDecode att.content.asString), _⟩ :=
          (Option.some_inj.mp (Except.ok.inj h)).symm
        have hbuf : r.buffer = decodeBase64 (normalizeBase64ForDecode att.content.asString) := by
          rw [hr]
        have hmt : r.mimeType =
            match normalizeMime att.mimeType with
            | some v => v
            | none =>
              match detect (decodeBase64 (normalizeBase64ForDecode att.content.asString)) with
              | some v => v
              | none => "audio/octet-stream" := by
          rw [hr]
        refine ⟨by rw [hbuf]; omega, by rw [hbuf]; omega, ?_, ?_⟩
        · rw [hmt]
          simpa [isAudioMime] using haudio
        · rw [hmt, ← hbuf]
          cases hnm : normalizeMime att.mimeType with
          | some v => simp
          | none =>
            cases hdet : detect r.buffer with
            | some m => simp [← hbuf, hdet]
            | none => simp [← hbuf, hdet]
      · simp at h

theorem audioStep_ok_some
    {detect : List Nat → Option String} {maxB idx : Nat}
    {a : Option NormalizedAttachment} {r : FirstAudioResult}
    (h : audioStep detect maxB idx a = .ok (some r)) :
    ∃ att : NormalizedAttachment,
      decodeAndValidateAudioAttachment detect att idx maxB = .ok (some r) := by
  unfold audioStep at h
  cases a with
  | none => simp at h
  | some att =>
    simp only [] at h
    cases hc : att.content with
    | nonString => rw [hc] at h; simp at h
    | str s =>
      rw [hc] at h
      simp only [] at h
      split at h
      · simp at h
      · rename_i o ho
        split at ho
        · exact ⟨att, by rw [ho, h]⟩
        · simp at ho
      · rename_i o ho
        split at h
        · exact ⟨att, h⟩
        · simp at h

theorem firstAudioGo_ok_some
    {detect : List Nat → Option String} {maxB : Nat}
    {l : List (Option NormalizedAttachment)} {r : FirstAudioResult} :
    ∀ {idx : Nat}, firstAudioGo detect maxB idx l = .ok (some r) →
    ∃ (i : Nat) (att : NormalizedAttachment),
      decodeAndValidateAudioAttachment detect att i maxB = .ok (some r) := by
  induction l with
  | nil => intro idx h; simp [firstAudioGo] at h
  | cons a t ih =>
    intro idx h
    rw [firstAudioGo_cons] at h
    cases ha : audioStep detect maxB idx a with
    | error e => rw [ha] at h; simp at h
    | ok o =>
      cases o with
      | some r' =>
        rw [ha] at h
        have hr : r' = r := by simpa using h
        subst hr
        exact ⟨idx, audioStep_ok_some ha⟩
      | none =>
        rw [ha] at h
        simp only [] at h
        exact ih h

/-- Claim C10 (confirmed): whenever `getFirstAudioAttachment` returns a
non-null result, the decoded buffer length lies in `[1, maxBytes]` and the
resolved MIME type begins with `audio/`, is lowercase, and carries no
parameter suffix — including the fabricated `audio/octet-stream`
fallback. The hypothesis on `detect` is the spec's §3 guarantee that the
(unseen) detector only produces normalized lowercase parameter-free MIME
strings. -/
theorem getFirstAudioAttachment_wellformed
    (detect : List Nat → Option String)
    (atts : Option (List (Option NormalizedAttachment))) (maxB : Nat) (r : FirstAudioResult)
    (hdet : ∀ bs m, detect bs = some m →
      lowerString m = m ∧ m.data.all (fun c => c ≠ ';') = true)
    (h : getFirstAudioAttachment detect atts maxB = .ok (some r)) :
    1 ≤ r.buffer.length ∧ r.buffer.length ≤ maxB ∧
    strStartsWith r.mimeType ("audio/") = true ∧
    lowerString r.mimeType = r.mimeType ∧
    r.mimeType.data.all (fun c => c ≠ ';') = true := by
  have hgo : ∃ (i : Nat) (att : NormalizedAttachment),
      decodeAndValidateAudioAttachment detect att i maxB = .ok (some r) := by
    unfold getFirstAudioAttachment at h
    cases atts with
    | none => simp at h
    | some l =>
      simp only [] at h
      by_cases hl : l.isEmpty
      · rw [if_pos hl] at h; simp at h
      · rw [if_neg hl] at h
        exact firstAudioGo_ok_some h
  obtain ⟨i, att, hdv⟩ := hgo
  obtain ⟨h1, h2, h3, h4⟩ := decodeAndValidateAudioAttachment_ok_some hdv
  refine ⟨h1, h2, h3, ?_⟩
  rcases h4 with h4 | h4 | h4
  · rw [h4]
    exact ⟨by decide, by decide⟩
  · exact normalizeMime_props h4
  · exact hdet _ _ h4

/-- Witness for C10 at a concrete Ogg audio attachment under the modelled
detector (which emits only lowercase, parameter-free MIME strings). -/
theorem getFirstAudioAttachment_wellformed_witness :
    1 ≤ ([79, 103, 103, 83] : List Nat).length ∧
    ([79, 103, 103, 83] : List Nat).length ≤ 1000 ∧
    strStartsWith ("audio/ogg") ("audio/") = true ∧
    lowerString ("audio/ogg") = "audio/ogg" ∧
    ("audio/ogg").data.all (fun c => c ≠ ';') = true := by
  have hdet : ∀ bs m, detectMimeModel bs = some m →
      lowerString m = m ∧ m.data.all (fun c => c ≠ ';') = true := by
    intro bs m hm
    unfold detectMimeModel at hm
    split at hm
    · have : m = "audio/ogg" := by simpa using hm.symm
      subst this
      exact ⟨by decide, by decide⟩
    · split at hm
      · have : m = "audio/mpeg" := by simpa using hm.symm
        subst this
        exact ⟨by decide, by decide⟩
      · split at hm
        · have : m = "image/jpeg" := by simpa using hm.symm
          subst this
          exact ⟨by decide, by decide⟩
        · split at hm
          · have : m = "image/png" := by simpa using hm.symm
            subst this
            exact ⟨by decide, by decide⟩
          · split at hm
            · have : m = "video/mp4" := by simpa using hm.symm
              subst this
              exact ⟨by decide, by decide⟩
            · simp at hm
  exact getFirstAudioAttachment_wellformed detectMimeModel
    (some [some ⟨none, some ("audio/ogg"), none, ContentValue.str ("T2dnUw==")⟩]) 1000
    ⟨[79, 103, 103, 83], "audio/ogg"⟩ hdet rfl

/-! ### Computation lemmas for qualifying audio attachments -/

theorem decodeAndValidate_declared_audio (detect : List Nat → Option String)
    (att : NormalizedAttachment) (idx maxB : Nat) (s pm : String)
    (hc : att.content = ContentValue.str s)
    (hm : normalizeMime att.mimeType = some pm)
    (hpa : strStartsWith pm ("audio/") = true)
    (hvalid : hasInvalidBase64Char (normalizeBase64ForDecode s) = false)
    (hlen1 : 1 ≤ (decodeBase64 (normalizeBase64ForDecode s)).length)
    (hlen2 : (decodeBase64 (normalizeBase64ForDecode s)).length ≤ maxB) :
    decodeAndValidateAudioAttachment detect att idx maxB =
      .ok (some ⟨decodeBase64 (normalizeBase64ForDecode s), pm⟩) := by
  unfold decodeAndValidateAudioAttachment
  simp only [hc, ContentValue.asString]
  rw [hvalid]
  simp only [Bool.false_eq_true, if_false]
  rw [if_neg (by omega :
    ¬((decodeBase64 (normalizeBase64ForDecode s)).length = 0 ∨
      maxB < (decodeBase64 (normalizeBase64ForDecode s)).length))]
  rw [hm]
  have ha : isAudioMime (some pm) = true := by simpa [isAudioMime] using hpa
  simp only [ha, if_true]

theorem decodeAndValidate_no_declared (detect : List Nat → Option String)
    (att : NormalizedAttachment) (idx maxB : Nat) (s : String)
    (hc : att.content = ContentValue.str s)
    (hm : normalizeMime att.mimeType = none)
    (hvalid : hasInvalidBase64Char (normalizeBase64ForDecode s) = false)
    (hlen1 : 1 ≤ (decodeBase64 (normalizeBase64ForDecode s)).length)
    (hlen2 : (decodeBase64 (normalizeBase64ForDecode s)).length ≤ maxB)
    (hdetfull : ∀ m', detect (decodeBase64 (normalizeBase64ForDecode s)) = some m' →
      strStartsWith m' ("audio/") = true) :
    decodeAndValidateAudioAttachment detect att idx maxB =
      .ok (some ⟨decodeBase64 (normalizeBase64ForDecode s),
        match detect (decodeBase64 (normalizeBase64ForDecode s)) with
        | some v => v
        | none => "audio/octet-stream"⟩) := by
  unfold decodeAndValidateAudioAttachment
  simp only [hc, ContentValue.asString]
  rw [hvalid]
  simp only [Bool.false_eq_true, if_false]
  rw [if_neg (by omega :
    ¬((decodeBase64 (normalizeBase64ForDecode s)).length = 0 ∨
      maxB < (decodeBase64 (normalizeBase64ForDecode s)).length))]
  rw [hm]
  cases hdet : detect (decodeBase64 (normalizeBase64ForDecode s)) with
  | some m' =>
    have ha : isAudioMime (some m') = true := by
      simpa [isAudioMime] using hdetfull m' hdet
    simp only [ha, if_true]
  | none =>
    simp only []
    rw [if_pos (by decide : isAudioMime (some ("audio/octet-stream")) = true)]

theorem audioStep_declared_audio_some (detect : List Nat → Option String)
    (maxB idx : Nat) (att : NormalizedAttachment) (s pm : String) (r : FirstAudioResult)
    (hc : att.content = ContentValue.str s)
    (hm : normalizeMime (some (att.mimeType.getD (""))) = some pm)
    (hpa : strStartsWith pm ("audio/") = true)
    (hstep : decodeAndValidateAudioAttachment detect att idx maxB = .ok (some r)) :
    audioStep detect maxB idx (some att) = .ok (some r) := by
  unfold audioStep
  simp only []
  rw [hc]
  simp only [hm]
  have ha : isAudioMime (some pm) = true := by simpa [isAudioMime] using hpa
  simp only [ha, Option.isSome_some, Bool.and_self, if_true, hstep]

theorem audioStep_sniffed_audio_some (detect : List Nat → Option String)
    (maxB idx : Nat) (att : NormalizedAttachment) (s sm : String) (r : FirstAudioResult)
    (hc : att.content = ContentValue.str s)
    (hm : normalizeMime (some (att.mimeType.getD (""))) = none)
    (hsniff : normalizeMime (sniffMimeFromBase64 detect s) = some sm)
    (hsm : strStartsWith sm ("audio/") = true)
    (hstep : decodeAndValidateAudioAttachment detect att idx maxB = .ok (some r)) :
    audioStep detect maxB idx (some att) = .ok (some r) := by
  unfold audioStep
  simp only []
  rw [hc]
  simp only [hm, Option.isSome_none, Bool.false_and, Bool.false_eq_true, if_false]
  simp only [hsniff]
  have ha : isAudioMime (some sm) = true := by simpa [isAudioMime] using hsm
  simp only [ha, Option.isSome_some, Bool.and_self, if_true, hstep]

theorem getFirstAudio_append_first (detect : List Nat → Option String) (maxB : Nat)
    (xs : List (Option NormalizedAttachment)) (a : Option NormalizedAttachment)
    (ys : List (Option NormalizedAttachment)) (r : FirstAudioResult)
    (hxs : firstAudioGo detect maxB 0 xs = .ok none)
    (ha : audioStep detect maxB xs.length a = .ok (some r)) :
    getFirstAudioAttachment detect (some (xs ++ a :: ys)) maxB = .ok (some r) := by
  have hne : (xs ++ a :: ys).isEmpty = false := by cases xs <;> rfl
  show (if (xs ++ a :: ys).isEmpty then Except.ok none
      else firstAudioGo detect maxB 0 (xs ++ a :: ys)) = .ok (some r)
  rw [hne]
  simp only [Bool.false_eq_true, if_false]
  rw [firstAudioGo_append_of_none detect maxB xs (a :: ys) 0 hxs, Nat.zero_add,
    firstAudioGo_cons, ha]

theorem parseGo_cons (detect : List Nat → Option String) (maxB idx : Nat)
    (a : Option ChatAttachment) (rest : List (Option ChatAttachment)) :
    parseGo detect maxB idx (a :: rest) =
      match parseStep detect maxB idx a with
      | .error e => .error e
      | .ok (img?, w) =>
        match parseGo detect maxB (idx + 1) rest with
        | .error e => .error e
        | .ok (imgs, ws) => .ok (img?.toList ++ imgs, w ++ ws) := rfl

theorem parse_singleton (detect : List Nat → Option String) (msg : String) (maxB : Nat)
    (att : ChatAttachment) (img? : Option ChatImageContent) (w : List String)
    (h : parseStep detect maxB 0 (some att) = .ok (img?, w)) :
    parseMessageWithAttachments detect msg (some [some att]) maxB =
      .ok (⟨msg, img?.toList⟩, w) := by
  have hGo : parseGo detect maxB 0 [some att] = .ok (img?.toList, w) := by
    rw [parseGo_cons, h]
    simp [parseGo]
  simp [parseMessageWithAttachments, hGo]

/-! ### C2 — sniffed-audio fallback in the strict path -/

/-- Claim C2, counterexample: an attachment with declared (non-audio) MIME
`video/mp4` whose content is valid base64 of an Ogg page (sniffing as
`audio/ogg`, decoding to 4 bytes ∈ [1, 1000]) is *not* selected by
`getFirstAudioAttachment` — the post-decode re-check resolves the declared
type and rejects it, so the call returns `null` although the claim
requires the sniffed-audio path to succeed for it. -/
theorem sniffed_audio_counterexample :
    getFirstAudioAttachment detectMimeModel
        (some [some ⟨none, some ("video/mp4"), none, ContentValue.str ("T2dnUw==")⟩]) 1000 =
      .ok none
    ∧ normalizeMime (sniffMimeFromBase64 detectMimeModel ("T2dnUw==")) = some ("audio/ogg")
    ∧ hasInvalidBase64Char (normalizeBase64ForDecode ("T2dnUw==")) = false
    ∧ (decodeBase64 (normalizeBase64ForDecode ("T2dnUw=="))).length = 4 := by
  exact ⟨rfl, rfl, rfl, rfl⟩

/-- Claim C2 as amended: in the strict first-audio path, for every
attachment whose declared MIME type is *absent* (normalizes to nothing),
whose content is valid base64 decoding to between 1 and maxBytes bytes,
whose sniffed type is audio — with full-buffer detection consistent, i.e.
reporting audio or nothing — and with no earlier attachment qualifying,
`getFirstAudioAttachment` returns that attachment's decoded buffer. (When
a declared non-audio MIME is present, the attachment is skipped instead:
see the counterexample.) -/
theorem sniffed_audio_selected (detect : List Nat → Option String)
    (t f : Option String) (s : String) (maxB : Nat)
    (xs ys : List (Option NormalizedAttachment)) (sm : String)
    (hsniff : normalizeMime (sniffMimeFromBase64 detect s) = some sm)
    (hsm : strStartsWith sm ("audio/") = true)
    (hvalid : hasInvalidBase64Char (normalizeBase64ForDecode s) = false)
    (hlen1 : 1 ≤ (decodeBase64 (normalizeBase64ForDecode s)).length)
    (hlen2 : (decodeBase64 (normalizeBase64ForDecode s)).length ≤ maxB)
    (hdetfull : ∀ m', detect (decodeBase64 (normalizeBase64ForDecode s)) = some m' →
      strStartsWith m' ("audio/") = true)
    (hxs : firstAudioGo detect maxB 0 xs = .ok none) :
    getFirstAudioAttachment detect
        (some (xs ++ some (⟨t, none, f, ContentValue.str s⟩ : NormalizedAttachment) :: ys))
        maxB =
      .ok (some ⟨decodeBase64 (normalizeBase64ForDecode s),
        match detect (decodeBase64 (normalizeBase64ForDecode s)) with
        | some v => v
        | none => "audio/octet-stream"⟩) := by
  apply getFirstAudio_append_first detect maxB xs _ ys _ hxs
  apply audioStep_sniffed_audio_some detect maxB xs.length _ s sm
  · rfl
  · rfl
  · exact hsniff
  · exact hsm
  · exact decodeAndValidate_no_declared detect _ xs.length maxB s rfl rfl hvalid hlen1 hlen2 hdetfull

/-- Witness for C2's amended theorem at a concrete Ogg attachment with no
declared MIME type. -/
theorem sniffed_audio_selected_witness :
    getFirstAudioAttachment detectMimeModel
        (some [some ⟨none, none, none, ContentValue.str ("T2dnUw==")⟩]) 1000 =
      .ok (some ⟨[79, 103, 103, 83], "audio/ogg"⟩) := by
  have h := sniffed_audio_selected detectMimeModel none none ("T2dnUw==") 1000 [] []
    "audio/ogg" rfl (by decide) rfl (by decide) (by decide)
    (fun m' hm => by
      have hm2 : m' = "audio/ogg" := by
        have : detectMimeModel (decodeBase64 (normalizeBase64ForDecode ("T2dnUw=="))) =
            some ("audio/ogg") := rfl
        rw [this] at hm
        exact (Option.some_inj.mp hm).symm
      rw [hm2]
      decide)
    rfl
  exact h

/-! ### C4 — audio/MPEG-4 container override in both paths -/

theorem parseStep_m4a_override (detect : List Nat → Option String) (maxB idx : Nat)
    (att : ChatAttachment) (s pm : String)
    (hc : att.content = ContentValue.str s)
    (hm : normalizeMime (some (att.mimeType.getD (""))) = some pm)
    (hpa : strStartsWith pm ("audio/") = true)
    (hsniff : normalizeMime (sniffMimeFromBase64 detect (normalizeBase64ForDecode s)) =
      some ("video/mp4"))
    (hvalid : hasInvalidBase64Char (normalizeBase64ForDecode s) = false)
    (hlen1 : 1 ≤ (decodeBase64 (normalizeBase64ForDecode s)).length)
    (hlen2 : (decodeBase64 (normalizeBase64ForDecode s)).length ≤ maxB) :
    parseStep detect maxB idx (some att) = .ok (none, []) := by
  unfold parseStep
  simp only []
  rw [hc]
  simp only [hvalid, Bool.false_eq_true, if_false]
  rw [if_neg (by omega :
    ¬((decodeBase64 (normalizeBase64ForDecode s)).length = 0 ∨
      maxB < (decodeBase64 (normalizeBase64ForDecode s)).length))]
  simp only [hm, hsniff]
  have haud : isAudioMime (some pm) = true := by simpa [isAudioMime] using hpa
  have h1 : isImageMime (some ("video/mp4")) = false := by decide
  have h2 : isAudioMime (some ("video/mp4")) = false := by decide
  simp [h1, h2, haud]

/-- Claim C4 (confirmed): an attachment with a declared audio MIME type
(normalizing to `pm`, e.g. `audio/m4a`) whose bytes sniff as the generic
MPEG-4 container type `video/mp4` and whose payload validates is treated
as audio by both paths: the lenient path drops it from the image list with
no warning, and the strict path selects it (returning its decoded buffer
and the declared audio type) when no earlier attachment qualifies. -/
theorem m4a_override_both_paths (detect : List Nat → Option String)
    (t f : Option String) (m' s msg : String) (maxB : Nat)
    (xs ys : List (Option NormalizedAttachment)) (pm : String)
    (h1 : normalizeMime (some m') = some pm)
    (h2 : strStartsWith pm ("audio/") = true)
    (h3 : normalizeMime (sniffMimeFromBase64 detect (normalizeBase64ForDecode s)) =
      some ("video/mp4"))
    (hvalid : hasInvalidBase64Char (normalizeBase64ForDecode s) = false)
    (hlen1 : 1 ≤ (decodeBase64 (normalizeBase64ForDecode s)).length)
    (hlen2 : (decodeBase64 (normalizeBase64ForDecode s)).length ≤ maxB)
    (hxs : firstAudioGo detect maxB 0 xs = .ok none) :
    parseMessageWithAttachments detect msg
        (some [some ⟨t, some m', f, ContentValue.str s⟩]) maxB = .ok (⟨msg, []⟩, [])
    ∧ getFirstAudioAttachment detect
        (some (xs ++ some (⟨t, some m', f, ContentValue.str s⟩ : NormalizedAttachment) :: ys))
        maxB =
      .ok (some ⟨decodeBase64 (normalizeBase64ForDecode s), pm⟩) := by
  constructor
  · have hstep := parseStep_m4a_override detect maxB 0
      ⟨t, some m', f, ContentValue.str s⟩ s pm rfl (by simpa using h1) h2 h3 hvalid hlen1 hlen2
    have := parse_singleton detect msg maxB ⟨t, some m', f, ContentValue.str s⟩ none [] hstep
    simpa using this
  · apply getFirstAudio_append_first detect maxB xs _ ys _ hxs
    apply audioStep_declared_audio_some detect maxB xs.length _ s pm
    · rfl
    · simpa using h1
    · exact h2
    · exact decodeAndValidate_declared_audio detect _ xs.length maxB s pm rfl h1 h2
        hvalid hlen1 hlen2

/-- Witness for C4 at a concrete `audio/m4a`-declared MPEG-4 (`ftyp`)
attachment. -/
theorem m4a_override_both_paths_witness :
    parseMessageWithAttachments detectMimeModel ("hi")
        (some [some ⟨none, some ("audio/m4a"), none, ContentValue.str ("AAAAGGZ0eXA=")⟩]) 1000 =
      .ok (⟨"hi", []⟩, [])
    ∧ getFirstAudioAttachment detectMimeModel
        (some [some ⟨none, some ("audio/m4a"), none, ContentValue.str ("AAAAGGZ0eXA=")⟩]) 1000 =
      .ok (some ⟨[0, 0, 0, 24, 102, 116, 121, 112], "audio/m4a"⟩) :=
  m4a_override_both_paths detectMimeModel none none ("audio/m4a") "AAAAGGZ0eXA=" "hi" 1000
    [] [] "audio/m4a" rfl (by decide) rfl rfl (by decide) (by decide) rfl

/-! ### C5 — declared/sniffed image mismatch: sniffed wins, warning emitted -/

/-- Claim C5 (confirmed): a valid attachment whose declared and sniffed
MIME types are both present, both images, and different is kept in the
image list with the *sniffed* type, and a single warning naming the
attachment label and both types is emitted; the call succeeds. -/
theorem mime_mismatch_sniffed_wins (detect : List Nat → Option String)
    (t f : Option String) (m' s msg : String) (maxB : Nat) (pm sm : String)
    (h1 : normalizeMime (some m') = some pm)
    (h2 : strStartsWith pm ("image/") = true)
    (h3 : normalizeMime (sniffMimeFromBase64 detect (normalizeBase64ForDecode s)) = some sm)
    (h4 : strStartsWith sm ("image/") = true)
    (h5 : sm ≠ pm)
    (hvalid : hasInvalidBase64Char (normalizeBase64ForDecode s) = false)
    (hlen1 : 1 ≤ (decodeBase64 (normalizeBase64ForDecode s)).length)
    (hlen2 : (decodeBase64 (normalizeBase64ForDecode s)).length ≤ maxB) :
    parseMessageWithAttachments detect msg
        (some [some ⟨t, some m', f, ContentValue.str s⟩]) maxB =
      .ok (⟨msg, [⟨"image", normalizeBase64ForDecode s, sm⟩]⟩,
        ["attachment " ++ attachmentLabel f t 0 ++ ": mime mismatch (" ++ pm ++
          " -> " ++ sm ++ "), using sniffed"]) := by
  have him : isImageMime (some sm) = true := by simpa [isImageMime] using h4
  have hstep : parseStep detect maxB 0
      (some ⟨t, some m', f, ContentValue.str s⟩) =
      .ok (some ⟨"image", normalizeBase64ForDecode s, sm⟩,
        ["attachment " ++ attachmentLabel f t 0 ++ ": mime mismatch (" ++ pm ++
          " -> " ++ sm ++ "), using sniffed"]) := by
    unfold parseStep
    simp only [hvalid, Bool.false_eq_true, if_false]
    rw [if_neg (by omega :
      ¬((decodeBase64 (normalizeBase64ForDecode s)).length = 0 ∨
        maxB < (decodeBase64 (normalizeBase64ForDecode s)).length))]
    simp only [Option.getD_some, h1, h3, him]
    rw [if_neg (by simp)]
    rw [if_neg (by simp)]
    rw [if_pos ⟨by simp, by simp, by simpa using h5⟩]
    simp
  have := parse_singleton detect msg maxB ⟨t, some m', f, ContentValue.str s⟩
    (some ⟨"image", normalizeBase64ForDecode s, sm⟩)
    (["attachment " ++ attachmentLabel f t 0 ++ ": mime mismatch (" ++ pm ++
      " -> " ++ sm ++ "), using sniffed"]) hstep
  simpa using this

/-- Witness for C5: bytes with a JPEG signature declared as `image/png`
are kept as `image/jpeg` with the mismatch warning. -/
theorem mime_mismatch_sniffed_wins_witness :
    parseMessageWithAttachments detectMimeModel ("hi")
        (some [some ⟨none, some ("image/png"), some ("pic.png"), ContentValue.str ("/9j/4AAQ")⟩])
        5000000 =
      .ok (⟨"hi", [⟨"image", "/9j/4AAQ", "image/jpeg"⟩]⟩,
        ["attachment pic.png: mime mismatch (image/png -> image/jpeg), using sniffed"]) := by
  have h := mime_mismatch_sniffed_wins detectMimeModel none (some ("pic.png"))
    "image/png" "/9j/4AAQ" "hi" 5000000 ("image/png") "image/jpeg"
    rfl (by decide) rfl (by decide) (by decide) rfl (by decide) (by decide)
  exact h

/-! ### C6 — size ceiling boundary on the lenient and strict paths -/

/-- Claim C6 (confirmed): with a valid-charset payload, a decoded size in
`[1, maxBytes]` (in particular exactly `maxBytes`) passes validation on
both the lenient path (the call succeeds) and the strict audio validator
(no error is thrown), while a decoded size of zero or above `maxBytes`
fails both with the exceeds-size-limit error naming the observed size and
the limit. -/
theorem size_boundary (detect : List Nat → Option String)
    (t m f : Option String) (s msg : String) (maxB idx : Nat)
    (hvalid : hasInvalidBase64Char (normalizeBase64ForDecode s) = false) :
    ((1 ≤ (decodeBase64 (normalizeBase64ForDecode s)).length ∧
        (decodeBase64 (normalizeBase64ForDecode s)).length ≤ maxB) →
      (∃ v, parseMessageWithAttachments detect msg
          (some [some (⟨t, m, f, ContentValue.str s⟩ : ChatAttachment)]) maxB = .ok v) ∧
      (∃ r, decodeAndValidateAudioAttachment detect
          (⟨t, m, f, ContentValue.str s⟩ : NormalizedAttachment) idx maxB = .ok r))
    ∧ (((decodeBase64 (normalizeBase64ForDecode s)).length = 0 ∨
        maxB < (decodeBase64 (normalizeBase64ForDecode s)).length) →
      parseMessageWithAttachments detect msg
          (some [some (⟨t, m, f, ContentValue.str s⟩ : ChatAttachment)]) maxB =
        .error ("attachment " ++ attachmentLabel f t 0 ++ ": exceeds size limit (" ++
          toString (decodeBase64 (normalizeBase64ForDecode s)).length ++ " > " ++
          toString maxB ++ " bytes)")
      ∧ decodeAndValidateAudioAttachment detect
          (⟨t, m, f, ContentValue.str s⟩ : NormalizedAttachment) idx maxB =
        .error ("attachment " ++ attachmentLabel f t idx ++ ": exceeds size limit (" ++
          toString (decodeBase64 (normalizeBase64ForDecode s)).length ++ " > " ++
          toString maxB ++ " bytes)")) := by
  constructor
  · intro hin
    constructor
    · have hstep : ∃ iw, parseStep detect maxB 0
          (some (⟨t, m, f, ContentValue.str s⟩ : ChatAttachment)) = .ok iw := by
        unfold parseStep
        simp only [hvalid, Bool.false_eq_true, if_false]
        rw [if_neg (by omega :
          ¬((decodeBase64 (normalizeBase64ForDecode s)).length = 0 ∨
            maxB < (decodeBase64 (normalizeBase64ForDecode s)).length))]
        split
        · split
          · exact ⟨_, rfl⟩
          · exact ⟨_, rfl⟩
        · split
          · split
            · exact ⟨_, rfl⟩
            · exact ⟨_, rfl⟩
          · exact ⟨_, rfl⟩
      obtain ⟨⟨img?, w⟩, hstep⟩ := hstep
      exact ⟨_, parse_singleton detect msg maxB _ img? w hstep⟩
    · unfold decodeAndValidateAudioAttachment
      simp only [ContentValue.asString, hvalid, Bool.false_eq_true, if_false]
      rw [if_neg (by omega :
        ¬((decodeBase64 (normalizeBase64ForDecode s)).length = 0 ∨
          maxB < (decodeBase64 (normalizeBase64ForDecode s)).length))]
      split
      · exact ⟨_, rfl⟩
      · exact ⟨_, rfl⟩
  · intro hout
    constructor
    · have hstep : parseStep detect maxB 0
          (some (⟨t, m, f, ContentValue.str s⟩ : ChatAttachment)) =
          .error ("attachment " ++ attachmentLabel f t 0 ++ ": exceeds size limit (" ++
            toString (decodeBase64 (normalizeBase64ForDecode s)).length ++ " > " ++
            toString maxB ++ " bytes)") := by
        unfold parseStep
        simp only [hvalid, Bool.false_eq_true, if_false]
        rw [if_pos hout]
      have hGo : parseGo detect maxB 0
          [some (⟨t, m, f, ContentValue.str s⟩ : ChatAttachment)] =
          .error ("attachment " ++ attachmentLabel f t 0 ++ ": exceeds size limit (" ++
            toString (decodeBase64 (normalizeBase64ForDecode s)).length ++ " > " ++
            toString maxB ++ " bytes)") := by
        rw [parseGo_cons, hstep]
      simp [parseMessageWithAttachments, hGo]
    · unfold decodeAndValidateAudioAttachment
      simp only [ContentValue.asString, hvalid, Bool.false_eq_true, if_false]
      rw [if_pos hout]

/-- Witness for C6: `"QUJD"` decodes to 3 bytes; the lenient path succeeds
with `maxBytes = 3` and fails with `maxBytes = 2` citing `3 > 2`. -/
theorem size_boundary_witness :
    (∃ v, parseMessageWithAttachments detectMimeModel ("m")
        (some [some (⟨none, none, none, ContentValue.str ("QUJD")⟩ : ChatAttachment)]) 3 =
      .ok v)
    ∧ parseMessageWithAttachments detectMimeModel ("m")
        (some [some (⟨none, none, none, ContentValue.str ("QUJD")⟩ : ChatAttachment)]) 2 =
      .error ("attachment attachment-1: exceeds size limit (3 > 2 bytes)") := by
  constructor
  · exact ((size_boundary detectMimeModel none none none ("QUJD") "m" 3 0 rfl).1
      (by decide)).1
  · exact ((size_boundary detectMimeModel none none none ("QUJD") "m" 2 0 rfl).2
      (by decide)).1

/-! ### C8 — lenient output is the ordered image classification -/

theorem parseGo_ok_images (detect : List Nat → Option String) (maxB : Nat)
    (l : List (Option ChatAttachment)) :
    ∀ idx imgs ws, parseGo detect maxB idx l = .ok (imgs, ws) →
      imgs = imagesOfFrom detect maxB idx l := by
  induction l with
  | nil =>
    intro idx imgs ws h
    simp [parseGo] at h
    simp [imagesOfFrom, h.1.symm]
  | cons a rest ih =>
    intro idx imgs ws h
    rw [parseGo_cons] at h
    cases hstep : parseStep detect maxB idx a with
    | error e => rw [hstep] at h; simp at h
    | ok iw =>
      obtain ⟨img?, w⟩ := iw
      rw [hstep] at h
      simp only [] at h
      cases hrest : parseGo detect maxB (idx + 1) rest with
      | error e => rw [hrest] at h; simp at h
      | ok rw' =>
        obtain ⟨imgs', ws'⟩ := rw'
        rw [hrest] at h
        simp only [] at h
        have himgs : imgs = img?.toList ++ imgs' := by
          have := Except.ok.inj h
          exact (congrArg Prod.fst this).symm
        rw [himgs]
        unfold imagesOfFrom
        rw [stepImage, hstep]
        rw [ih (idx + 1) imgs' ws' hrest]

/-- Claim C8 (confirmed): whenever the lenient path succeeds, it returns
the pass-through message unchanged, and its image list is exactly the
per-attachment image classification of the input list, in input order
(hence a sub-sequence of the input: one entry per attachment classified
as image, nothing else). -/
theorem parse_images_ordered (detect : List Nat → Option String) (msg : String)
    (l : List (Option ChatAttachment)) (maxB : Nat)
    (p : ParsedMessageWithImages × List String)
    (h : parseMessageWithAttachments detect msg (some l) maxB = .ok p) :
    p.1.message = msg ∧ p.1.images = imagesOfFrom detect maxB 0 l := by
  unfold parseMessageWithAttachments at h
  simp only [] at h
  by_cases hl : l.isEmpty
  · rw [if_pos hl] at h
    have hp : p = (⟨msg, []⟩, []) := (Except.ok.inj h).symm
    have hnil : l = [] := List.isEmpty_iff.mp hl
    rw [hp, hnil]
    exact ⟨rfl, rfl⟩
  · rw [if_neg hl] at h
    cases hgo : parseGo detect maxB 0 l with
    | error e => rw [hgo] at h; simp at h
    | ok iw =>
      obtain ⟨imgs, ws⟩ := iw
      rw [hgo] at h
      simp only [] at h
      have hp : p = (⟨msg, imgs⟩, ws) := (Except.ok.inj h).symm
      rw [hp]
      exact ⟨rfl, parseGo_ok_images detect maxB l 0 imgs ws hgo⟩

/-- Witness for C8 at the spec's example shape `[audio, image_A, other,
image_B]`: the output images are exactly the classification of the input,
in order. -/
theorem parse_images_ordered_witness :
    ((⟨"hello", [⟨"image", "/9j/4AAQ", "image/jpeg"⟩,
        ⟨"image", "iVBORw0KGgo=", "image/png"⟩]⟩ : ParsedMessageWithImages),
      ["attachment attachment-3: unable to detect image mime type, dropping"]).1.message =
        "hello"
    ∧ ((⟨"hello", [⟨"image", "/9j/4AAQ", "image/jpeg"⟩,
        ⟨"image", "iVBORw0KGgo=", "image/png"⟩]⟩ : ParsedMessageWithImages),
      ["attachment attachment-3: unable to detect image mime type, dropping"]).1.images =
        imagesOfFrom detectMimeModel 1000 0
          [some ⟨none, some ("audio/ogg"), none, ContentValue.str ("T2dnUw==")⟩,
           some ⟨none, some ("image/jpeg"), some ("a.jpg"), ContentValue.str ("/9j/4AAQ")⟩,
           some ⟨none, none, none, ContentValue.str ("QUJD")⟩,
           some ⟨none, some ("image/png"), some ("b.png"), ContentValue.str ("iVBORw0KGgo=")⟩] :=
  parse_images_ordered detectMimeModel ("hello")
    [some ⟨none, some ("audio/ogg"), none, ContentValue.str ("T2dnUw==")⟩,
     some ⟨none, some ("image/jpeg"), some ("a.jpg"), ContentValue.str ("/9j/4AAQ")⟩,
     some ⟨none, none, none, ContentValue.str ("QUJD")⟩,
     some ⟨none, some ("image/png"), some ("b.png"), ContentValue.str ("iVBORw0KGgo=")⟩]
    1000 _ rfl

end OpenClaw
